import Mathlib

/-!
# Verification of the protohost port-allocation registry

Shallow embedding of `internal/registry/registry.go` (package `registry`).

The SQLite table `port_allocations` is modelled as a list of `Lease` rows
(`Ledger`).  The schema's `UNIQUE` constraints on `project_name` and
`web_port` are not baked into the type: they are proved as an invariant of
the reachable states (claim C1).

Timestamps: the Go code stores RFC3339 UTC strings and compares them with
SQL `<`, which for such strings agrees with chronological order; `AddDate(0,
0, ttlDays)` adds calendar days.  Time is therefore modelled as a `Nat`
measured in days, and `expires_at = now + ttlDays`.

The OS-level bind probe `isPortAvailable` (a `net.Listen` call) is modelled
as an oracle `bindOK : Nat → Bool` passed to the functions that use it.
The SQL `INSERT` in `AllocatePort` is fallible in the source (the driver
can report a uniqueness violation raced in by a concurrent process); this
single fallible call is modelled by the boolean parameter `insertOK`: the
source executes the insert exactly once and returns its error unchanged.
-/

namespace Protohost

/-- One row of the `port_allocations` table (`PortAllocation` in
`models.go`).  `id` is the `INTEGER PRIMARY KEY AUTOINCREMENT` column. -/
structure Lease where
  id : Nat
  project_name : String
  web_port : Nat
  branch : String
  created_at : Nat
  expires_at : Nat
  status : String
  repo_url : String
deriving DecidableEq

/-- The registry database: the rows of `port_allocations` in insertion
order. -/
abbrev Ledger := List Lease

/-- The set (as a list) of ports recorded by any lease, regardless of
status — the `usedPorts` map built by `findAvailablePort` from
`SELECT web_port FROM port_allocations`. -/
def usedPorts (db : Ledger) : List Nat :=
  db.map (fun a => a.web_port)

/-- The project names recorded in the ledger. -/
def projectNames (db : Ledger) : List String :=
  db.map (fun a => a.project_name)

/-- Errors surfaced by allocation, named after the spec's taxonomy.
`exhausted lo hi` is the source's
`fmt.Errorf("no available ports in range %d-%d", basePort, basePort+99)`;
`conflict` is a failed `INSERT` (uniqueness violation reported by the
driver), wrapped by the source as "failed to insert allocation". -/
inductive AllocError where
  | exhausted (lo hi : Nat)
  | conflict
deriving DecidableEq

/-- The scan loop of `findAvailablePort`:
`for offset := 0; offset < 100; offset++ { ... }`, with `fuel` the number
of iterations left (`100 - offset` at entry).  A candidate already in
`used` is skipped; otherwise the bind probe decides. -/
def scanLoop (used : List Nat) (bindOK : Nat → Bool) (basePort : Nat) :
    Nat → Nat → Option Nat
  | _, 0 => none
  | offset, fuel + 1 =>
    if basePort + offset ∈ used then
      scanLoop used bindOK basePort (offset + 1) fuel
    else if bindOK (basePort + offset) then
      some (basePort + offset)
    else
      scanLoop used bindOK basePort (offset + 1) fuel

/-- Model of `findAvailablePort`: first-fit search over the 100-slot window starting
at `basePort`, skipping ports recorded in the ledger (any status) and ports
whose bind probe fails. -/
def findAvailablePort (db : Ledger) (bindOK : Nat → Bool) (basePort : Nat) :
    Except AllocError Nat :=
  match scanLoop (usedPorts db) bindOK basePort 0 100 with
  | some port => .ok port
  | none => .error (.exhausted basePort (basePort + 99))

/-- Next value of the `AUTOINCREMENT` id column. -/
def nextId (db : Ledger) : Nat :=
  db.foldr (fun a m => max a.id m) 0 + 1

/-- Row effect of the reuse branch's
`UPDATE port_allocations SET expires_at = ?, status = 'running' WHERE
project_name = ?` on one row. -/
def refreshRow (projectName : String) (expiresAt : Nat) (a : Lease) :
    Lease :=
  if a.project_name == projectName then
    { a with expires_at := expiresAt, status := "running" }
  else a

/-- The row built by the `INSERT INTO port_allocations ... VALUES (?, ?,
?, ?, ?, 'running', ?)` of `AllocatePort`. -/
def newRow (db : Ledger) (projectName branch repoURL : String)
    (port ttlDays now : Nat) : Lease :=
  { id := nextId db, project_name := projectName, web_port := port,
    branch := branch, created_at := now, expires_at := now + ttlDays,
    status := "running", repo_url := repoURL }

/-- Model of `AllocatePort`: if the project already has a row, refresh
`expires_at` and `status` (the `UPDATE ... WHERE project_name = ?`) and
return its existing port; otherwise find a free port and insert a fresh
`running` row.  Returns the caller-visible result together with the
post-state of the database.  `insertOK` is the outcome of the single
`db.Exec(INSERT ...)` call: on failure the source returns the error at
once, leaving the database as it was. -/
def allocatePort (db : Ledger) (bindOK : Nat → Bool)
    (projectName branch repoURL : String) (ttlDays basePort now : Nat)
    (insertOK : Bool) : Except AllocError Nat × Ledger :=
  match db.find? (fun a => a.project_name == projectName) with
  | some a =>
    (.ok a.web_port, db.map (refreshRow projectName (now + ttlDays)))
  | none =>
    match findAvailablePort db bindOK basePort with
    | .error e => (.error e, db)
    | .ok port =>
      if insertOK then
        (.ok port,
          db ++ [newRow db projectName branch repoURL port ttlDays now])
      else
        (.error .conflict, db)

/-- Row effect of `UpdateStatus`'s
`UPDATE port_allocations SET status = ? WHERE project_name = ?`. -/
def setStatusRow (projectName status : String) (a : Lease) : Lease :=
  if a.project_name == projectName then { a with status := status } else a

/-- Model of `UpdateStatus`: `UPDATE port_allocations SET status = ? WHERE
project_name = ?`. -/
def updateStatus (db : Ledger) (projectName status : String) : Ledger :=
  db.map (setStatusRow projectName status)

/-- Model of `ReleasePort`: `DELETE FROM port_allocations WHERE project_name = ?`. -/
def releasePort (db : Ledger) (projectName : String) : Ledger :=
  db.filter (fun a => !(a.project_name == projectName))

/-- Row effect of `MarkExpired`'s
`UPDATE port_allocations SET status = 'expired' WHERE expires_at < ?`. -/
def expireRow (now : Nat) (a : Lease) : Lease :=
  if a.expires_at < now then { a with status := "expired" } else a

/-- Model of `MarkExpired`: select the rows with `expires_at < now AND status !=
'expired'`, and if any were found update `status` to `expired` for every
row with `expires_at < now` (the `UPDATE` repeats only the `expires_at`
filter).  Returns the selected rows (pre-update snapshots) and the
post-state. -/
def markExpired (db : Ledger) (now : Nat) : List Lease × Ledger :=
  let expired := db.filter
    (fun a => decide (a.expires_at < now) && !(a.status == "expired"))
  if expired.length > 0 then
    (expired, db.map (expireRow now))
  else
    (expired, db)

/-- One core operation against the registry, with every external input it
consumes (clock reading, bind-probe oracle, insert outcome) carried in the
operation. -/
inductive Op where
  | alloc (bindOK : Nat → Bool) (projectName branch repoURL : String)
      (ttlDays basePort now : Nat) (insertOK : Bool)
  | setStatus (projectName status : String)
  | release (projectName : String)
  | sweep (now : Nat)

/-- Effect of one operation on the database state. -/
def step (db : Ledger) : Op → Ledger
  | .alloc bindOK pn b u t base now iOK =>
      (allocatePort db bindOK pn b u t base now iOK).2
  | .setStatus pn st => updateStatus db pn st
  | .release pn => releasePort db pn
  | .sweep now => (markExpired db now).2

/-- The database state reached from a fresh (empty) registry by a sequence
of core operations. -/
def runOps (ops : List Op) : Ledger :=
  ops.foldl step []

/-- The schema's two `UNIQUE` constraints: no two rows share a
`project_name` and no two rows share a `web_port`. -/
def UniqueLedger (db : Ledger) : Prop :=
  (projectNames db).Nodup ∧ (usedPorts db).Nodup

/-- A concrete lease used to instantiate the theorems below on concrete
inputs. -/
def sampleLease : Lease :=
  { id := 1, project_name := "app-main", web_port := 3000,
    branch := "main", created_at := 0, expires_at := 7,
    status := "running", repo_url := "git@example:app" }

/-- A second concrete lease, holding the next port. -/
def sampleLease2 : Lease :=
  { id := 2, project_name := "app-feature", web_port := 3001,
    branch := "feature", created_at := 1, expires_at := 8,
    status := "running", repo_url := "git@example:app" }

/-- A concrete lease far from expiry. -/
def sampleLease3 : Lease :=
  { id := 3, project_name := "app-fresh", web_port := 3002,
    branch := "fresh", created_at := 2, expires_at := 100,
    status := "running", repo_url := "git@example:app" }

/-! ## Verification of the scan loop -/

/-- A successful scan returns a port inside the remaining window that is
neither recorded in the ledger nor refused by the bind probe, and every
smaller candidate from the scan's start is recorded or refused. -/
theorem scanLoop_some {used : List Nat} {bindOK : Nat → Bool}
    {basePort : Nat} :
    ∀ fuel offset p, scanLoop used bindOK basePort offset fuel = some p →
      basePort + offset ≤ p ∧ p < basePort + offset + fuel ∧ p ∉ used ∧
      bindOK p = true ∧
      ∀ q, basePort + offset ≤ q → q < p → q ∈ used ∨ bindOK q = false := by
  intro fuel
  induction fuel with
  | zero =>
    intro offset p h
    simp [scanLoop] at h
  | succ fuel ih =>
    intro offset p h
    rw [scanLoop] at h
    split at h
    case isTrue hmem =>
      obtain ⟨h1, h2, h3, h4, h5⟩ := ih (offset + 1) p h
      refine ⟨by omega, by omega, h3, h4, fun q hq1 hq2 => ?_⟩
      rcases Nat.eq_or_lt_of_le hq1 with hq | hq
      · exact Or.inl (hq ▸ hmem)
      · exact h5 q (by omega) hq2
    case isFalse hmem =>
      split at h
      case isTrue hbind =>
        injection h with h
        subst h
        exact ⟨Nat.le_refl _, by omega, hmem, hbind,
          fun q hq1 hq2 => absurd (Nat.lt_of_le_of_lt hq1 hq2)
            (Nat.lt_irrefl _)⟩
      case isFalse hbind =>
        obtain ⟨h1, h2, h3, h4, h5⟩ := ih (offset + 1) p h
        refine ⟨by omega, by omega, h3, h4, fun q hq1 hq2 => ?_⟩
        rcases Nat.eq_or_lt_of_le hq1 with hq | hq
        · exact Or.inr (hq ▸ Bool.eq_false_iff.mpr hbind)
        · exact h5 q (by omega) hq2

/-- A failed scan means every candidate in the remaining window is
recorded in the ledger or refused by the bind probe. -/
theorem scanLoop_none {used : List Nat} {bindOK : Nat → Bool}
    {basePort : Nat} :
    ∀ fuel offset, scanLoop used bindOK basePort offset fuel = none →
      ∀ q, basePort + offset ≤ q → q < basePort + offset + fuel →
        q ∈ used ∨ bindOK q = false := by
  intro fuel
  induction fuel with
  | zero =>
    intro offset _ q hq1 hq2
    omega
  | succ fuel ih =>
    intro offset h q hq1 hq2
    rw [scanLoop] at h
    split at h
    case isTrue hmem =>
      rcases Nat.eq_or_lt_of_le hq1 with hq | hq
      · exact Or.inl (hq ▸ hmem)
      · exact ih (offset + 1) h q (by omega) (by omega)
    case isFalse hmem =>
      split at h
      case isTrue hbind => exact absurd h (by simp)
      case isFalse hbind =>
        rcases Nat.eq_or_lt_of_le hq1 with hq | hq
        · exact Or.inr (hq ▸ Bool.eq_false_iff.mpr hbind)
        · exact ih (offset + 1) h q (by omega) (by omega)

/-- Soundness of `findAvailablePort`: a returned port lies in the 100-slot
window, is recorded by no lease, passes the bind probe, and is the
smallest such candidate. -/
theorem findAvailablePort_ok {db : Ledger} {bindOK : Nat → Bool}
    {basePort p : Nat}
    (h : findAvailablePort db bindOK basePort = .ok p) :
    basePort ≤ p ∧ p ≤ basePort + 99 ∧ p ∉ usedPorts db ∧
    bindOK p = true ∧
    ∀ q, basePort ≤ q → q < p → q ∈ usedPorts db ∨ bindOK q = false := by
  rw [findAvailablePort] at h
  rcases hscan : scanLoop (usedPorts db) bindOK basePort 0 100 with _ | p0
  · rw [hscan] at h
    exact absurd h (by simp)
  · rw [hscan] at h
    injection h with h
    subst h
    obtain ⟨h1, h2, h3, h4, h5⟩ := scanLoop_some 100 0 p0 hscan
    exact ⟨by omega, by omega, h3, h4, fun q hq1 hq2 => h5 q (by omega) hq2⟩

/-- Completeness of `findAvailablePort`: if some candidate in the window
is both unrecorded and bindable, the search succeeds, with a result no
larger than that candidate. -/
theorem findAvailablePort_complete {db : Ledger} {bindOK : Nat → Bool}
    {basePort q : Nat} (h1 : basePort ≤ q) (h2 : q ≤ basePort + 99)
    (h3 : q ∉ usedPorts db) (h4 : bindOK q = true) :
    ∃ p, findAvailablePort db bindOK basePort = .ok p ∧ p ≤ q := by
  rcases hscan : scanLoop (usedPorts db) bindOK basePort 0 100 with _ | p0
  · have := scanLoop_none 100 0 hscan q (by omega) (by omega)
    rcases this with hmem | hbind
    · exact absurd hmem h3
    · rw [h4] at hbind
      exact absurd hbind (by simp)
  · refine ⟨p0, by rw [findAvailablePort, hscan], ?_⟩
    obtain ⟨_, _, _, _, h5⟩ := scanLoop_some 100 0 p0 hscan
    by_contra hlt
    rcases h5 q (by omega) (by omega) with hmem | hbind
    · exact h3 hmem
    · rw [h4] at hbind
      exact absurd hbind (by simp)

/-- Exhaustion: if the scan fails, the result names the window
`basePort .. basePort+99` and every port in it was recorded or refused. -/
theorem findAvailablePort_exhausted {db : Ledger} {bindOK : Nat → Bool}
    {basePort : Nat}
    (h : ∀ q, basePort ≤ q → q ≤ basePort + 99 →
      q ∈ usedPorts db ∨ bindOK q = false) :
    findAvailablePort db bindOK basePort =
      .error (.exhausted basePort (basePort + 99)) := by
  rcases hscan : scanLoop (usedPorts db) bindOK basePort 0 100 with _ | p0
  · rw [findAvailablePort, hscan]
  · obtain ⟨h1, h2, h3, h4, _⟩ := scanLoop_some 100 0 p0 hscan
    rcases h p0 (by omega) (by omega) with hmem | hbind
    · exact absurd hmem h3
    · rw [h4] at hbind
      exact absurd hbind (by simp)

/-! ## Row-level field lemmas -/

/-- The reuse-branch `UPDATE` touches only `expires_at` and `status`. -/
theorem refreshRow_fields (pn : String) (e : Nat) (a : Lease) :
    (refreshRow pn e a).project_name = a.project_name ∧
    (refreshRow pn e a).web_port = a.web_port ∧
    (refreshRow pn e a).id = a.id ∧
    (refreshRow pn e a).branch = a.branch ∧
    (refreshRow pn e a).created_at = a.created_at ∧
    (refreshRow pn e a).repo_url = a.repo_url := by
  rw [refreshRow]
  split <;> exact ⟨rfl, rfl, rfl, rfl, rfl, rfl⟩

/-- The map of `UpdateStatus` touches only `status`. -/
theorem setStatusRow_fields (pn st : String) (a : Lease) :
    (setStatusRow pn st a).project_name = a.project_name ∧
    (setStatusRow pn st a).web_port = a.web_port := by
  rw [setStatusRow]
  split <;> exact ⟨rfl, rfl⟩

/-- The expiry `UPDATE` touches only `status`. -/
theorem expireRow_fields (now : Nat) (a : Lease) :
    (expireRow now a).project_name = a.project_name ∧
    (expireRow now a).web_port = a.web_port := by
  rw [expireRow]
  split <;> exact ⟨rfl, rfl⟩

/-! ## Helper lemmas on row maps -/

/-- Mapping a row transformation that preserves a field leaves the
projection of that field unchanged. -/
theorem map_field_eq {β : Type} (f : Lease → Lease) (g : Lease → β)
    (hf : ∀ a, g (f a) = g a) (l : List Lease) :
    (l.map f).map g = l.map g := by
  induction l with
  | nil => rfl
  | cons a t ih => simp [hf, ih]

/-- Appending one row to a duplicate-free projection keeps it
duplicate-free when the new value is fresh. -/
theorem nodup_concat {α : Type} {l : List α} {x : α} (hl : l.Nodup)
    (hx : x ∉ l) : (l ++ [x]).Nodup := by
  induction l with
  | nil => simp
  | cons a t ih =>
    simp only [List.cons_append, List.nodup_cons, List.mem_cons] at *
    push_neg at hx
    refine ⟨?_, ih hl.2 hx.2⟩
    intro hmem
    rcases List.mem_append.mp hmem with hmem | hmem
    · exact hl.1 hmem
    · simp only [List.mem_singleton] at hmem
      exact hx.1 hmem.symm

/-! ## Unfolding lemmas for allocatePort -/

/-- Reuse branch: the project already has a row. -/
theorem allocatePort_reuse {db : Ledger} {bindOK : Nat → Bool}
    {pn b u : String} {t base now : Nat} {iOK : Bool} {a : Lease}
    (hfind : db.find? (fun x => x.project_name == pn) = some a) :
    allocatePort db bindOK pn b u t base now iOK =
      (.ok a.web_port, db.map (refreshRow pn (now + t))) := by
  simp [allocatePort, hfind]

/-- Fresh branch, successful insert. -/
theorem allocatePort_fresh {db : Ledger} {bindOK : Nat → Bool}
    {pn b u : String} {t base now port : Nat}
    (hfind : db.find? (fun x => x.project_name == pn) = none)
    (hfp : findAvailablePort db bindOK base = .ok port) :
    allocatePort db bindOK pn b u t base now true =
      (.ok port, db ++ [newRow db pn b u port t now]) := by
  simp [allocatePort, hfind, hfp]

/-- Fresh branch, failed insert: the single `db.Exec(INSERT)` reports a
uniqueness conflict, which is returned at once with the database
untouched. -/
theorem allocatePort_conflict {db : Ledger} {bindOK : Nat → Bool}
    {pn b u : String} {t base now port : Nat}
    (hfind : db.find? (fun x => x.project_name == pn) = none)
    (hfp : findAvailablePort db bindOK base = .ok port) :
    allocatePort db bindOK pn b u t base now false =
      (.error .conflict, db) := by
  simp [allocatePort, hfind, hfp]

/-- Fresh branch, no free port: the search error is returned and the
database is untouched. -/
theorem allocatePort_noPort {db : Ledger} {bindOK : Nat → Bool}
    {pn b u : String} {t base now : Nat} {iOK : Bool} {e : AllocError}
    (hfind : db.find? (fun x => x.project_name == pn) = none)
    (hfp : findAvailablePort db bindOK base = .error e) :
    allocatePort db bindOK pn b u t base now iOK = (.error e, db) := by
  simp [allocatePort, hfind, hfp]

/-- A `find?` miss on the project-name predicate means the name is
recorded by no row. -/
theorem not_mem_projectNames {db : Ledger} {pn : String}
    (h : db.find? (fun a => a.project_name == pn) = none) :
    pn ∉ projectNames db := by
  intro hmem
  rcases List.mem_map.mp hmem with ⟨a, ha, hname⟩
  have := List.find?_eq_none.mp h a ha
  simp [hname] at this

/-- Behaviour of `find?` under a name-preserving row map. -/
theorem find?_map_pres (p : Lease → Bool) (f : Lease → Lease)
    (hp : ∀ a, p (f a) = p a) :
    ∀ l : List Lease, (l.map f).find? p = (l.find? p).map f := by
  intro l
  induction l with
  | nil => rfl
  | cons a t ih =>
    rcases hpa : p a with _ | _
    · simp [List.find?_cons, hp, hpa, ih]
    · simp [List.find?_cons, hp, hpa]

/-- Every row map relates pointwise to its source list. -/
theorem forall₂_map_self (f : Lease → Lease) :
    ∀ l : List Lease, List.Forall₂ (fun a b => b = f a) l (l.map f) := by
  intro l
  induction l with
  | nil => exact List.Forall₂.nil
  | cons a t ih => exact List.Forall₂.cons rfl ih

/-! ## C1: uniqueness is an invariant of all core operations -/

/-- Mapping a projection-preserving row transformation keeps the ledger's
uniqueness. -/
theorem unique_of_map {db : Ledger} (h : UniqueLedger db)
    (f : Lease → Lease)
    (hf : ∀ a, (f a).project_name = a.project_name ∧
      (f a).web_port = a.web_port) :
    UniqueLedger (db.map f) := by
  constructor
  · show ((db.map f).map _).Nodup
    rw [map_field_eq _ _ (fun a => (hf a).1)]
    exact h.1
  · show ((db.map f).map _).Nodup
    rw [map_field_eq _ _ (fun a => (hf a).2)]
    exact h.2

/-- Each core operation preserves the two uniqueness constraints. -/
theorem step_preserves_unique {db : Ledger} (h : UniqueLedger db)
    (op : Op) : UniqueLedger (step db op) := by
  cases op with
  | setStatus pn st =>
    exact unique_of_map h _ (fun a => setStatusRow_fields pn st a)
  | release pn =>
    exact ⟨h.1.sublist ((List.filter_sublist db).map _),
      h.2.sublist ((List.filter_sublist db).map _)⟩
  | sweep now =>
    show UniqueLedger (markExpired db now).2
    rw [markExpired]
    split
    · exact unique_of_map h _ (fun a => expireRow_fields now a)
    · exact h
  | alloc bindOK pn b u t base now iOK =>
    show UniqueLedger (allocatePort db bindOK pn b u t base now iOK).2
    rcases hfind : db.find? (fun x => x.project_name == pn) with _ | a
    · rcases hfp : findAvailablePort db bindOK base with e | port
      · rw [allocatePort_noPort hfind hfp]
        exact h
      · cases iOK with
        | false =>
          rw [allocatePort_conflict hfind hfp]
          exact h
        | true =>
          rw [allocatePort_fresh hfind hfp]
          constructor
          · show ((db ++ [_]).map _).Nodup
            rw [List.map_append]
            exact nodup_concat h.1 (not_mem_projectNames hfind)
          · show ((db ++ [_]).map _).Nodup
            rw [List.map_append]
            exact nodup_concat h.2 (findAvailablePort_ok hfp).2.2.1
    · rw [allocatePort_reuse hfind]
      exact unique_of_map h _
        (fun x => ⟨(refreshRow_fields pn (now + t) x).1,
          (refreshRow_fields pn (now + t) x).2.1⟩)

/-- Folding any operation sequence preserves uniqueness. -/
theorem foldl_step_unique :
    ∀ (ops : List Op) (db : Ledger), UniqueLedger db →
      UniqueLedger (ops.foldl step db) := by
  intro ops
  induction ops with
  | nil => intro db h; exact h
  | cons op rest ih => intro db h; exact ih _ (step_preserves_unique h op)

/-- C1: in every ledger state reachable from the fresh (empty) registry by
any sequence of the core operations (`AllocatePort`, `UpdateStatus`,
`ReleasePort`, `MarkExpired`), no two leases share a `project_name` and no
two leases share a `web_port`. -/
theorem uniqueness_invariant_reachable (ops : List Op) :
    UniqueLedger (runOps ops) :=
  foldl_step_unique ops [] ⟨List.nodup_nil, List.nodup_nil⟩

/-! ## C2: idempotent reuse -/

/-- A port-preserving row map leaves the recorded port set unchanged. -/
theorem usedPorts_map {db : Ledger} (f : Lease → Lease)
    (hf : ∀ a, (f a).web_port = a.web_port) :
    usedPorts (db.map f) = usedPorts db :=
  map_field_eq f _ hf db

/-- C2: for a project that already holds a lease, two consecutive
`AllocatePort` calls both return the existing port, and the second call
inserts no new lease: the recorded port set and the number of leases are
unchanged. -/
theorem idempotent_reuse {db : Ledger} {bindOK : Nat → Bool}
    {pn b u : String} {t base now₁ now₂ : Nat} {iOK₁ iOK₂ : Bool}
    {a : Lease}
    (hfind : db.find? (fun x => x.project_name == pn) = some a) :
    ∃ db₁ db₂,
      allocatePort db bindOK pn b u t base now₁ iOK₁ =
        (.ok a.web_port, db₁) ∧
      allocatePort db₁ bindOK pn b u t base now₂ iOK₂ =
        (.ok a.web_port, db₂) ∧
      usedPorts db₂ = usedPorts db ∧ db₂.length = db.length := by
  have hpres : ∀ x : Lease,
      ((refreshRow pn (now₁ + t) x).project_name == pn) =
        (x.project_name == pn) := by
    intro x
    rw [(refreshRow_fields pn (now₁ + t) x).1]
  have hfind₁ : (db.map (refreshRow pn (now₁ + t))).find?
      (fun x => x.project_name == pn) =
      some (refreshRow pn (now₁ + t) a) := by
    rw [find?_map_pres _ _ hpres db, hfind]
    rfl
  refine ⟨db.map (refreshRow pn (now₁ + t)),
    (db.map (refreshRow pn (now₁ + t))).map (refreshRow pn (now₂ + t)),
    allocatePort_reuse hfind, ?_, ?_, ?_⟩
  · rw [allocatePort_reuse hfind₁,
      (refreshRow_fields pn (now₁ + t) a).2.1]
  · rw [usedPorts_map _ (fun x => (refreshRow_fields pn (now₂ + t) x).2.1),
      usedPorts_map _ (fun x => (refreshRow_fields pn (now₁ + t) x).2.1)]
  · rw [List.length_map, List.length_map]

/-- C2 at a concrete input: a one-lease ledger, two consecutive calls. -/
theorem idempotent_reuse_witness :
    ∃ db₁ db₂,
      allocatePort [sampleLease] (fun _ => true) "app-main" "main"
        "git@example:app" 7 3000 1 true = (.ok sampleLease.web_port, db₁) ∧
      allocatePort db₁ (fun _ => true) "app-main" "main"
        "git@example:app" 7 3000 2 true = (.ok sampleLease.web_port, db₂) ∧
      usedPorts db₂ = usedPorts [sampleLease] ∧
      db₂.length = ([sampleLease] : Ledger).length :=
  idempotent_reuse (by rfl)

/-! ## C3: sliding TTL -/

/-- C3: after any successful `AllocatePort` call for project `pn` with TTL
`t` at time `now` — fresh insert or refresh — every lease of `pn` in the
resulting ledger has `expires_at = now + t`, regardless of its previous
expiry. -/
theorem sliding_ttl {db : Ledger} {bindOK : Nat → Bool} {pn b u : String}
    {t base now : Nat} {iOK : Bool} {port : Nat} {db' : Ledger}
    (h : allocatePort db bindOK pn b u t base now iOK = (.ok port, db')) :
    ∀ a ∈ db', a.project_name = pn → a.expires_at = now + t := by
  rcases hfind : db.find? (fun x => x.project_name == pn) with _ | a0
  · rcases hfp : findAvailablePort db bindOK base with e | p0
    · rw [allocatePort_noPort hfind hfp] at h
      simp at h
    · cases iOK with
      | false =>
        rw [allocatePort_conflict hfind hfp] at h
        simp at h
      | true =>
        rw [allocatePort_fresh hfind hfp] at h
        rw [Prod.mk.injEq] at h
        obtain ⟨h1, rfl⟩ := h
        intro a ha hname
        rcases List.mem_append.mp ha with ha | ha
        · have := List.find?_eq_none.mp hfind a ha
          simp [hname] at this
        · simp only [List.mem_singleton] at ha
          subst ha
          rfl
  · rw [allocatePort_reuse hfind] at h
    rw [Prod.mk.injEq] at h
    obtain ⟨h1, rfl⟩ := h
    intro a ha hname
    rcases List.mem_map.mp ha with ⟨x, hx, rfl⟩
    by_cases hc : x.project_name = pn
    · simp [refreshRow, hc]
    · simp [refreshRow, hc] at hname

/-- C3 at a concrete input: a fresh allocation at time 0 with TTL 7 gives
expiry 0 + 7. -/
theorem sliding_ttl_witness :
    (newRow [] "app-main" "main" "git@example:app" 3000 7 0).expires_at =
      0 + 7 := by
  have h : allocatePort [] (fun _ => true) "app-main" "main"
      "git@example:app" 7 3000 0 true =
      (.ok 3000,
        [newRow [] "app-main" "main" "git@example:app" 3000 7 0]) := by
    rfl
  exact sliding_ttl h
    (newRow [] "app-main" "main" "git@example:app" 3000 7 0)
    (List.mem_singleton.mpr rfl) rfl

/-! ## C10: frame of the reuse branch -/

/-- C10: when `AllocatePort` is called for a project that already holds a
lease, only that lease's `expires_at` and `status` change; its `web_port`,
`created_at`, `branch` and `repo_url` keep their previous values (the
call's `branch` and `repoURL` arguments are ignored), and every lease of a
different project is unchanged. -/
theorem reuse_frame {db : Ledger} {bindOK : Nat → Bool} {pn b u : String}
    {t base now : Nat} {iOK : Bool} {a : Lease}
    (hfind : db.find? (fun x => x.project_name == pn) = some a) :
    (allocatePort db bindOK pn b u t base now iOK).1 = .ok a.web_port ∧
    List.Forall₂ (fun x y =>
      (x.project_name ≠ pn → y = x) ∧
      (x.project_name = pn →
        y.web_port = x.web_port ∧ y.created_at = x.created_at ∧
        y.branch = x.branch ∧ y.repo_url = x.repo_url ∧
        y.expires_at = now + t ∧ y.status = "running"))
      db (allocatePort db bindOK pn b u t base now iOK).2 := by
  rw [allocatePort_reuse hfind]
  refine ⟨rfl, ?_⟩
  refine (forall₂_map_self (refreshRow pn (now + t)) db).imp ?_
  intro x y hy
  subst hy
  constructor
  · intro hne
    simp [refreshRow, hne]
  · intro heq
    simp [refreshRow, heq]

/-! ## C4: first-fit allocation with dual check -/

/-- C4: a fresh allocation returns the smallest port of the 100-slot
window `base .. base+99` that is recorded by no lease (of any status) and
passes the bind probe; the search succeeds whenever such a port exists; in
particular with `base` and `base+1` recorded the result is `base+2`, and
if `base+2` is additionally externally bound the result is `base+3`. -/
theorem first_fit_allocation :
    (∀ (db : Ledger) (bindOK : Nat → Bool) (base p : Nat),
      findAvailablePort db bindOK base = .ok p →
        base ≤ p ∧ p ≤ base + 99 ∧ p ∉ usedPorts db ∧ bindOK p = true ∧
        ∀ q, base ≤ q → q < p → q ∈ usedPorts db ∨ bindOK q = false) ∧
    (∀ (db : Ledger) (bindOK : Nat → Bool) (base q : Nat),
      base ≤ q → q ≤ base + 99 → q ∉ usedPorts db → bindOK q = true →
      ∃ p, findAvailablePort db bindOK base = .ok p ∧ p ≤ q) ∧
    findAvailablePort [sampleLease, sampleLease2] (fun _ => true) 3000 =
      .ok 3002 ∧
    findAvailablePort [sampleLease, sampleLease2]
      (fun q => decide (q ≠ 3002)) 3000 = .ok 3003 :=
  ⟨fun _ _ _ _ h => findAvailablePort_ok h,
    fun _ _ _ _ h1 h2 h3 h4 => findAvailablePort_complete h1 h2 h3 h4,
    rfl, rfl⟩

/-- C4 at a concrete input: completeness applied to the two-lease ledger
with candidate 3002. -/
theorem first_fit_allocation_witness :
    ∃ p, findAvailablePort [sampleLease, sampleLease2] (fun _ => true)
      3000 = .ok p ∧ p ≤ 3002 :=
  first_fit_allocation.2.1 [sampleLease, sampleLease2] (fun _ => true)
    3000 3002 (by decide) (by decide) (by decide) rfl

/-! ## C5: expiry sweep exactness -/

/-- Both branches of `MarkExpired` return the same selected rows. -/
theorem markExpired_fst (db : Ledger) (now : Nat) :
    (markExpired db now).1 = db.filter
      (fun a => decide (a.expires_at < now) && !(a.status == "expired")) := by
  simp only [markExpired]
  split <;> rfl

/-- C5: `MarkExpired` returns exactly the leases with `expires_at < now`
and `status ≠ expired`; afterwards every lease with `expires_at < now` has
status `expired` and all its other fields intact, and every lease with
`expires_at ≥ now` is unchanged in all of its fields. -/
theorem sweep_exactness (db : Ledger) (now : Nat) :
    (∀ a, a ∈ (markExpired db now).1 ↔
      a ∈ db ∧ a.expires_at < now ∧ a.status ≠ "expired") ∧
    List.Forall₂ (fun x y =>
      (x.expires_at < now →
        y.project_name = x.project_name ∧ y.web_port = x.web_port ∧
        y.branch = x.branch ∧ y.created_at = x.created_at ∧
        y.expires_at = x.expires_at ∧ y.repo_url = x.repo_url ∧
        y.id = x.id ∧ y.status = "expired") ∧
      (now ≤ x.expires_at → y = x))
      db (markExpired db now).2 := by
  constructor
  · intro a
    rw [markExpired_fst]
    simp [List.mem_filter, and_assoc]
  · rw [markExpired]
    split
    · refine (forall₂_map_self (expireRow now) db).imp ?_
      intro x y hy
      subst hy
      constructor
      · intro hlt
        simp [expireRow, hlt]
      · intro hge
        simp [expireRow, Nat.not_lt.mpr hge]
    · next hlen =>
      rw [List.forall₂_same]
      intro x hx
      have hnil : db.filter (fun a =>
          decide (a.expires_at < now) && !(a.status == "expired")) = [] := by
        rcases Nat.eq_zero_or_pos (db.filter (fun a =>
          decide (a.expires_at < now) && !(a.status == "expired"))).length
          with h0 | h0
        · exact List.length_eq_zero.mp h0
        · exact absurd h0 hlen
      have hpred := List.filter_eq_nil_iff.mp hnil x hx
      constructor
      · intro hlt
        refine ⟨rfl, rfl, rfl, rfl, rfl, rfl, rfl, ?_⟩
        by_contra hst
        apply hpred
        simp [hlt, hst]
      · intro _
        rfl

/-- C5 at a concrete input: with one stale and one fresh lease at time 10,
the stale lease is returned by the sweep. -/
theorem sweep_exactness_witness :
    sampleLease ∈ (markExpired [sampleLease, sampleLease3] 10).1 :=
  ((sweep_exactness [sampleLease, sampleLease3] 10).1 sampleLease).mpr
    (by decide)

/-! ## C6: exhaustion is atomic -/

/-- C6: if every port of the window `base .. base+99` is recorded in the
ledger or fails the bind probe, allocation for a new project fails with
the exhaustion error naming that window, and the ledger is exactly
unchanged. -/
theorem exhaustion_atomic {db : Ledger} {bindOK : Nat → Bool}
    {pn b u : String} {t base now : Nat} {iOK : Bool}
    (hfind : db.find? (fun x => x.project_name == pn) = none)
    (hblock : ∀ q, base ≤ q → q ≤ base + 99 →
      q ∈ usedPorts db ∨ bindOK q = false) :
    allocatePort db bindOK pn b u t base now iOK =
      (.error (.exhausted base (base + 99)), db) :=
  allocatePort_noPort hfind (findAvailablePort_exhausted hblock)

/-- C6 at a concrete input: with every bind probe failing, allocation into
the empty ledger reports exhaustion of 3000–3099 and leaves the ledger
empty. -/
theorem exhaustion_atomic_witness :
    allocatePort [] (fun _ => false) "app-x" "main" "u" 7 3000 0 true =
      (.error (.exhausted 3000 3099), []) :=
  exhaustion_atomic rfl (fun _ _ _ => Or.inr rfl)

/-! ## C7: conflict handling (no retry in the source) -/

/-- C7 counterexample: a single uniqueness conflict at insert time is
returned directly to the caller — `AllocatePort` performs exactly one
insert attempt and no retry, refuting the claim that a single conflict is
never surfaced. -/
theorem conflict_retry_counterexample :
    allocatePort [] (fun _ => true) "app-main" "main" "git@example:app"
      7 3000 0 false = (.error .conflict, []) :=
  rfl

/-- C7 amended: whenever the fresh-insert path is reached and the single
`INSERT` reports a uniqueness conflict, `AllocatePort` surfaces the
conflict to the caller at once, with the ledger unchanged — no retry of
the allocation sequence takes place. -/
theorem conflict_surfaced_directly {db : Ledger} {bindOK : Nat → Bool}
    {pn b u : String} {t base now port : Nat}
    (hfind : db.find? (fun x => x.project_name == pn) = none)
    (hfp : findAvailablePort db bindOK base = .ok port) :
    allocatePort db bindOK pn b u t base now false =
      (.error .conflict, db) :=
  allocatePort_conflict hfind hfp

/-- C7 amended claim at a concrete input: one lease held, a conflicting
insert for a second project is surfaced directly. -/
theorem conflict_surfaced_directly_witness :
    allocatePort [sampleLease] (fun _ => true) "app-x" "main" "u" 7 3000
      4 false = (.error .conflict, [sampleLease]) :=
  conflict_surfaced_directly rfl rfl

/-! ## C8: the source returns no is_new flag -/

/-- C8 (code bug): the caller-visible result of `AllocatePort` is only the
port.  A first-time provisioning call (no lease recorded for the project)
and a redeploy call (lease recorded) produce the identical result
`.ok 3000`, so the return value cannot carry the `is_new` distinction that
the repository's own caller (`local.go` line 62) and documentation
(CLAUDE.md, "Registry returns `isNew` boolean from `AllocatePort()`")
require. -/
theorem allocate_result_lacks_isNew :
    (([] : Ledger).find? (fun x => x.project_name == "app-main") = none ∧
      (allocatePort [] (fun _ => true) "app-main" "main"
        "git@example:app" 7 3000 0 true).1 = .ok 3000) ∧
    (([newRow [] "app-main" "main" "git@example:app" 3000 7 0] :
        Ledger).find? (fun x => x.project_name == "app-main") ≠ none ∧
      (allocatePort [newRow [] "app-main" "main" "git@example:app" 3000 7 0]
        (fun _ => true) "app-main" "main" "git@example:app" 7 3000 1
        true).1 = .ok 3000) :=
  ⟨⟨rfl, rfl⟩, ⟨by decide, rfl⟩⟩

/-! ## C9: release frees the port immediately -/

/-- C9: if project `p` holds port `q` (in a ledger with unique ports),
then after `ReleasePort p` no lease records `q` any more, and a subsequent
allocation for a new project whose window contains `q` returns exactly `q`
whenever `q` is bindable and every smaller candidate of the window is
still recorded or unbindable. -/
theorem release_frees_port {db : Ledger} {bindOK : Nat → Bool}
    {p p2 b u : String} {q t base now : Nat} {a : Lease}
    (ha : a ∈ db) (hap : a.project_name = p) (haq : a.web_port = q)
    (hnodup : (usedPorts db).Nodup)
    (hfind2 : (releasePort db p).find?
      (fun x => x.project_name == p2) = none)
    (h1 : base ≤ q) (h2 : q ≤ base + 99) (hbind : bindOK q = true)
    (hmin : ∀ r, base ≤ r → r < q →
      r ∈ usedPorts (releasePort db p) ∨ bindOK r = false) :
    q ∉ usedPorts (releasePort db p) ∧
    (allocatePort (releasePort db p) bindOK p2 b u t base now true).1 =
      .ok q := by
  have hq : q ∉ usedPorts (releasePort db p) := by
    intro hq
    rcases List.mem_map.mp hq with ⟨x, hx, hxq⟩
    rcases List.mem_filter.mp hx with ⟨hxdb, hxp⟩
    have hxa : x = a :=
      List.inj_on_of_nodup_map hnodup hxdb ha (by rw [hxq, haq])
    rw [hxa, hap] at hxp
    simp at hxp
  refine ⟨hq, ?_⟩
  obtain ⟨p0, hfp, hle⟩ := findAvailablePort_complete h1 h2 hq hbind
  obtain ⟨hp1, hp2, hp3, hp4, hp5⟩ := findAvailablePort_ok hfp
  have hp0q : p0 = q := by
    rcases Nat.eq_or_lt_of_le hle with h | h
    · exact h
    · rcases hmin p0 hp1 h with hmem | hb
      · exact absurd hmem hp3
      · rw [hp4] at hb
        exact absurd hb (by simp)
  rw [allocatePort_fresh hfind2 hfp, hp0q]

/-- C9 at a concrete input: releasing `app-main` (port 3000) and then
allocating for `app-hotfix` with base 3000 returns 3000. -/
theorem release_frees_port_witness :
    3000 ∉ usedPorts (releasePort [sampleLease] "app-main") ∧
    (allocatePort (releasePort [sampleLease] "app-main") (fun _ => true)
      "app-hotfix" "hotfix" "u" 7 3000 5 true).1 = .ok 3000 :=
  release_frees_port (List.mem_singleton.mpr rfl) rfl rfl (by decide)
    rfl (Nat.le_refl 3000) (by omega) rfl
    (fun r hr1 hr2 => absurd hr1 (by omega))

/-- C10 at a concrete input: reuse on a one-lease ledger. -/
theorem reuse_frame_witness :
    (allocatePort [sampleLease] (fun _ => true) "app-main" "feature"
      "other-url" 7 3000 9 true).1 = .ok sampleLease.web_port ∧
    List.Forall₂ (fun x y =>
      (x.project_name ≠ "app-main" → y = x) ∧
      (x.project_name = "app-main" →
        y.web_port = x.web_port ∧ y.created_at = x.created_at ∧
        y.branch = x.branch ∧ y.repo_url = x.repo_url ∧
        y.expires_at = 9 + 7 ∧ y.status = "running"))
      [sampleLease]
      (allocatePort [sampleLease] (fun _ => true) "app-main" "feature"
        "other-url" 7 3000 9 true).2 :=
  reuse_frame (by rfl)

end Protohost
